import Mathlib

/-!
Verification of the go-fault request-pipeline fault-injection library.

Shallow embedding of the admission-and-composition engine:
  * the `Fault` admission controller (`fault.go` history, current version in
    the source tree: `NewFault`, `Fault.Handler`, `Fault.checkAllowBlockLists`,
    `Fault.participate`),
  * the `Injector` variants (`injector_reject.go`, `injector_error.go`,
    `injector_chain.go`, `injector_random.go` history).

Modelling conventions:
  * An HTTP handler is a function from a request to the trace of observable
    events it performs (`Reporter.Report` calls, `http.Error` writes,
    `panic(http.ErrAbortHandler)`, sleeps, and the downstream work).
  * Go `float32` values are modelled as rationals: the code only ever
    compares them (`<`, `<=`), and float comparison on the represented
    values agrees with the rational order.
  * Go maps are modelled as association lists; iteration order is
    irrelevant here because every loop combines iterations with `&&`.
  * A nil Go interface value is `Option.none`; a function returning
    `(*T, error)` is modelled with an explicit pair or outcome type.
  * The seeded `math/rand` generator is external (standard library), so
    constructors take the seed-to-generator function as a parameter.
-/

namespace GoFault

/-- A request: `r.URL.Path` and `r.Header`. Headers are an association list
of key/value pairs; `Header.Get` returns the first value for the key, or
the empty string (canonicalization of keys is outside the model). -/
structure Request where
  path : String
  headers : List (String × String)
deriving DecidableEq, Repr

/-- `r.Header.Get key`: first value stored for `key`, `""` when absent. -/
def headerGet (hs : List (String × String)) (k : String) : String :=
  match hs.find? (fun kv => kv.1 == k) with
  | some kv => kv.2
  | none => ""

/-- `InjectorState` from the reporter API: `StateStarted`, `StateFinished`,
`StateSkipped`. -/
inductive InjectorState where
  | started
  | finished
  | skipped
deriving DecidableEq, Repr

/-- A `Reporter` implementation; the observable is the `Report` call itself
(recorded in the trace), so implementations are only distinguished by
identity. `noop` is `NewNoopReporter()`, the default. -/
inductive Reporter where
  | noop
  | custom (id : Nat)
deriving DecidableEq, Repr

/-- Observable events performed by a handler. -/
inductive Event where
  /-- a call `reporter.Report(name, state)` -/
  | report (name : String) (state : InjectorState)
  /-- `http.Error(w, statusText, statusCode)` -/
  | write (statusCode : Nat) (statusText : String)
  /-- `panic(http.ErrAbortHandler)`: the simulated dropped connection -/
  | abort
  /-- `sleep(d)` in the SlowInjector -/
  | sleep (d : Nat)
  /-- an uninterpreted unit of downstream work -/
  | work (id : Nat)
deriving DecidableEq, Repr

/-- The trace of observable events of one request. A trace ending in
`.abort` represents the panic propagating to the transport; no handler in
this code base emits events after invoking a downstream handler, so no
truncation machinery is needed. -/
abbrev Trace := List Event

/-- `http.Handler`: a request to the trace of events serving it performs. -/
abbrev Handler := Request → Trace

/-- The `Injector` interface, identified with its single method
`Handler(next http.Handler) http.Handler`. -/
abbrev Injector := Handler → Handler

/-- A stored `func() float32` value (`Fault.randF`). -/
abbrev FloatFn := Unit → ℚ

/-- The sentinel errors of the package (`errors.New` values). -/
inductive GoErr where
  /-- `ErrNilInjector` -/
  | nilInjector
  /-- `ErrInvalidPercent` -/
  | invalidPercent
  /-- `ErrInvalidHTTPCode` -/
  | invalidHTTPCode
deriving DecidableEq, Repr

/-- `defaultRandSeed = 1`. -/
def defaultRandSeed : Int := 1

/-- The `Fault` struct (current `fault.go`): an Injector plus policy on when
to run it. `rand` itself is kept only as its seed; `randF` is the stored
random-float function (`none` = Go nil). -/
structure Fault where
  enabled : Bool
  injector : Injector
  participation : ℚ
  pathBlocklist : List String
  pathAllowlist : List String
  headerBlocklist : List (String × String)
  headerAllowlist : List (String × String)
  randSeed : Int
  randF : Option FloatFn

/-- The `Option` values accepted by `NewFault` (each `WithX` constructor). -/
inductive FaultOption where
  | enabled (e : Bool)
  | participation (p : ℚ)
  | pathBlocklist (l : List String)
  | pathAllowlist (l : List String)
  | headerBlocklist (m : List (String × String))
  | headerAllowlist (m : List (String × String))
  | randSeed (s : Int)
  | randFloat32Func (g : FloatFn)

/-- `opt.applyFault(f)`: mutates the Fault under construction, returning an
error only for out-of-range participation (`participationOption.applyFault`:
`if o < 0.0 || o > 1.0 { return ErrInvalidPercent }`). The map-valued
options copy their argument; copying an association list is the identity
here. -/
def FaultOption.applyFault : FaultOption → Fault → Except GoErr Fault
  | .enabled e, f => .ok { f with enabled := e }
  | .participation p, f =>
      if p < 0 ∨ 1 < p then .error .invalidPercent
      else .ok { f with participation := p }
  | .pathBlocklist l, f => .ok { f with pathBlocklist := l }
  | .pathAllowlist l, f => .ok { f with pathAllowlist := l }
  | .headerBlocklist m, f => .ok { f with headerBlocklist := m }
  | .headerAllowlist m, f => .ok { f with headerAllowlist := m }
  | .randSeed s, f => .ok { f with randSeed := s }
  | .randFloat32Func g, f => .ok { f with randF := some g }

/-- The option-application loop of `NewFault`: first error aborts. -/
def applyFaultOpts : List FaultOption → Fault → Except GoErr Fault
  | [], f => .ok f
  | o :: rest, f =>
      match o.applyFault f with
      | .error e => .error e
      | .ok f2 => applyFaultOpts rest f2

/-- The defaults block of `NewFault`. -/
def faultDefaults (inj : Injector) : Fault :=
  { enabled := false, injector := inj, participation := 0,
    pathBlocklist := [], pathAllowlist := [],
    headerBlocklist := [], headerAllowlist := [],
    randSeed := defaultRandSeed, randF := none }

/-- `NewFault(i, opts...)`. `stdFloat seed` stands for the external
`rand.New(rand.NewSource(seed)).Float32` method used when no custom random
function was supplied. Returns the Go pair `(*Fault, error)`. -/
def NewFault (stdFloat : Int → FloatFn) (i : Option Injector)
    (opts : List FaultOption) : Option Fault × Option GoErr :=
  match i with
  | none => (none, some .nilInjector)
  | some inj =>
    match applyFaultOpts opts (faultDefaults inj) with
    | .error e => (none, some e)
    | .ok f2 =>
        (some { f2 with randF := some (f2.randF.getD (stdFloat f2.randSeed)) },
         none)

/-- `Fault.checkAllowBlockLists(shouldEvaluate, r)`: the path and header
allow/block policy, threaded through the running `shouldEvaluate` flag
exactly as in the source (`&&` per item; map loops become folds — order
is irrelevant under `&&`). -/
def Fault.checkAllowBlockLists (f : Fault) (shouldEvaluate : Bool)
    (r : Request) : Bool :=
  -- false if path is in pathBlocklist
  let s := shouldEvaluate && !(f.pathBlocklist.contains r.path)
  -- false if pathAllowlist exists and path is not in it
  let s := if f.pathAllowlist.length > 0 then
             s && f.pathAllowlist.contains r.path
           else s
  -- false if any headers match headerBlocklist
  let s := f.headerBlocklist.foldl
             (fun acc kv => acc && !(headerGet r.headers kv.1 == kv.2)) s
  -- false if headerAllowlist exists and headers are not in it
  let s := if f.headerAllowlist.length > 0 then
             f.headerAllowlist.foldl
               (fun acc kv => acc && (headerGet r.headers kv.1 == kv.2)) s
           else s
  s

/-- `Fault.participate()`: `rn` is the value drawn from `f.randF()` under
`randMtx`; returns true iff `rn < f.participation && f.participation <= 1.0`. -/
def Fault.participate (f : Fault) (rn : ℚ) : Bool :=
  if rn < f.participation ∧ f.participation ≤ 1 then true else false

/-- The `shouldEvaluate` pipeline of `Fault.Handler`: enabled flag, then
allow/block lists, then the participation draw (`rn` the drawn float). -/
def Fault.shouldEval (f : Fault) (r : Request) (rn : ℚ) : Bool :=
  let s := f.enabled
  let s := s && f.checkAllowBlockLists s r
  let s := s && f.participate rn
  s

/-- `Fault.Handler(next)`: runs the injector when `shouldEvaluate`, else
passes through to `next`. -/
def Fault.Handler (f : Fault) (next : Handler) (r : Request) (rn : ℚ) : Trace :=
  if f.shouldEval r rn then f.injector next r else next r

/-- `SetEnabled`: `enabledOption.applyFault`, never an error. -/
def Fault.SetEnabled (f : Fault) (e : Bool) : Except GoErr Fault :=
  (FaultOption.enabled e).applyFault f

/-- `SetParticipation`: `participationOption.applyFault`, revalidates. -/
def Fault.SetParticipation (f : Fault) (p : ℚ) : Except GoErr Fault :=
  (FaultOption.participation p).applyFault f

/-! ### RejectInjector (`injector_reject.go`) -/

/-- `RejectInjector`: a reporter and nothing else. -/
structure RejectInjector where
  reporter : Reporter
deriving DecidableEq, Repr

/-- The `RejectInjectorOption` values (`WithReporter`). -/
inductive RejectInjectorOption where
  | reporter (rep : Reporter)
deriving DecidableEq, Repr

/-- `NewRejectInjector(opts...)`: default `NewNoopReporter()`, apply
options (`reporterOption.applyRejectInjector` never errors). -/
def NewRejectInjector (opts : List RejectInjectorOption) :
    Option RejectInjector × Option GoErr :=
  let ri : RejectInjector := { reporter := .noop }
  let ri := opts.foldl (fun acc o => match o with
    | .reporter rep => { acc with reporter := rep }) ri
  (some ri, none)

/-- `RejectInjector.Handler(next)`: reports `StateStarted` with the
reflected type name `"RejectInjector"`, then `panic(http.ErrAbortHandler)`.
`next` is never invoked and nothing further runs after the panic. -/
def RejectInjector.Handler (_i : RejectInjector) (_next : Handler) : Handler :=
  fun _r => [.report "RejectInjector" .started, .abort]

/-! ### ErrorInjector (`injector_error.go`) -/

/-- `ErrorInjector`: status code, status text, reporter. -/
structure ErrorInjector where
  statusCode : Nat
  statusText : String
  reporter : Reporter
deriving DecidableEq, Repr

/-- The `ErrorInjectorOption` values (`WithStatusText`, `WithReporter`). -/
inductive ErrorInjectorOption where
  | statusText (t : String)
  | reporter (rep : Reporter)
deriving DecidableEq, Repr

/-- The internal sentinel of `NewErrorInjector`:
`const placeholderStatusText = "go-fault: replace with default code text"`. -/
def placeholderStatusText : String := "go-fault: replace with default code text"

/-- An option's `applyErrorInjector` (both implementations always return a
nil error). -/
def ErrorInjectorOption.applyErrorInjector :
    ErrorInjectorOption → ErrorInjector → ErrorInjector
  | .statusText t, ei => { ei with statusText := t }
  | .reporter rep, ei => { ei with reporter := rep }

/-- `NewErrorInjector(code, opts...)`. `statusTextFn` stands for the
standard library's `http.StatusText` (`""` on unrecognized codes). After
options: unrecognized code fails with `ErrInvalidHTTPCode`; a status text
still equal to the sentinel is replaced by the standard text. -/
def NewErrorInjector (statusTextFn : Nat → String) (code : Nat)
    (opts : List ErrorInjectorOption) : Option ErrorInjector × Option GoErr :=
  let ei : ErrorInjector :=
    { statusCode := code, statusText := placeholderStatusText, reporter := .noop }
  let ei := opts.foldl (fun acc o => o.applyErrorInjector acc) ei
  if statusTextFn ei.statusCode == "" then
    (none, some .invalidHTTPCode)
  else if ei.statusText == placeholderStatusText then
    (some { ei with statusText := statusTextFn ei.statusCode }, none)
  else
    (some ei, none)

/-- `ErrorInjector.Handler(next)`: spawns a `StateStarted` report, writes
`http.Error(w, i.statusText, i.statusCode)`, spawns a `StateFinished`
report; never calls `next`. Events are listed in spawn order. -/
def ErrorInjector.Handler (i : ErrorInjector) (_next : Handler) : Handler :=
  fun _r =>
    [.report "ErrorInjector" .started,
     .write i.statusCode i.statusText,
     .report "ErrorInjector" .finished]

/-! ### ChainInjector (`injector_chain.go`) -/

/-- `ChainInjector`: the collected `middlewares` (`i.Handler` of each step,
in the order provided). -/
structure ChainInjector where
  middlewares : List Injector

/-- Outcome of a Go constructor returning `(*T, error)` whose body may also
panic at a nil interface: `ok` is `(t, nil)`, `err e` is `(nil, e)`,
`panicked` is a runtime nil-pointer panic while evaluating `i.Handler` on
a nil interface value. -/
inductive CtorOutcome (α : Type) where
  | ok (a : α)
  | err (e : GoErr)
  | panicked

/-- The collection loop of `NewChainInjector`: each entry is nil-checked
(`if i == nil { return nil, ErrNilInjector }`) before its `Handler` method
is appended. -/
def chainCollect : List (Option Injector) → List Injector →
    CtorOutcome (List Injector)
  | [], acc => .ok acc
  | none :: _, _ => .err .nilInjector
  | some i :: rest, acc => chainCollect rest (acc ++ [i])

/-- `NewChainInjector(is)`. -/
def NewChainInjector (is : List (Option Injector)) : CtorOutcome ChainInjector :=
  match chainCollect is [] with
  | .ok ms => .ok { middlewares := ms }
  | .err e => .err e
  | .panicked => .panicked

/-- `ChainInjector.Handler(next)`: the reverse loop
`for idx := len-1 downto 0 { next = middlewares[idx](next) }` followed by
`next.ServeHTTP` — i.e. a right fold wrapping from the last middleware
inward so that index 0 runs outermost. -/
def ChainInjector.Handler (ci : ChainInjector) (next : Handler) : Handler :=
  fun r => (ci.middlewares.foldr (fun m acc => m acc) next) r

/-! ### RandomInjector (`injector_random.go`, current version) -/

/-- `RandomInjector`: middlewares, the rand seed, and the int-drawing
function (`rand.Intn` of the seeded source by default). -/
structure RandomInjector where
  middlewares : List Injector
  randSeed : Int
  randF : Nat → Nat

/-- The `RandomInjectorOption` values (`WithRandSeed`, `WithRandIntFunc`);
both `apply` implementations always return a nil error. -/
inductive RandomInjectorOption where
  | randSeed (s : Int)
  | randIntFunc (g : Nat → Nat)

/-- The collection loop of `NewRandomInjector`: no nil check — evaluating
`i.Handler` on a nil interface value is a runtime nil-pointer panic. -/
def randomCollect : List (Option Injector) → List Injector →
    CtorOutcome (List Injector)
  | [], acc => .ok acc
  | none :: _, _ => .panicked
  | some i :: rest, acc => randomCollect rest (acc ++ [i])

/-- `NewRandomInjector(is, opts...)`: defaults (`defaultRandSeed`, nil
`randF`), apply options, collect middlewares, then seed the source and
default `randF` to its `Intn` method (`stdIntn seed`). -/
def NewRandomInjector (stdIntn : Int → Nat → Nat) (is : List (Option Injector))
    (opts : List RandomInjectorOption) : CtorOutcome RandomInjector :=
  let seedAndF : Int × Option (Nat → Nat) :=
    opts.foldl (fun acc o => match o with
      | .randSeed s => (s, acc.2)
      | .randIntFunc g => (acc.1, some g)) (defaultRandSeed, none)
  match randomCollect is [] with
  | .ok ms =>
      .ok { middlewares := ms, randSeed := seedAndF.1,
            randF := seedAndF.2.getD (stdIntn seedAndF.1) }
  | .err e => .err e
  | .panicked => .panicked

/-- `RandomInjector.Handler(next)`: with a non-empty list, draw
`randIdx := randF(len(middlewares))` (under `randMtx`) and serve
`middlewares[randIdx](next)`; the indexing is bounds-checked by the Go
runtime, so an out-of-range index is a panic, modelled as `none`. With an
empty list, serve `next`. -/
def RandomInjector.Handler (ri : RandomInjector) (next : Handler)
    (r : Request) : Option Trace :=
  if ri.middlewares.length > 0 then
    match ri.middlewares.get? (ri.randF ri.middlewares.length) with
    | some m => some (m next r)
    | none => none
  else
    some (next r)

/-! ### Helper lemmas -/

/-- Folding `&&` of a predicate over a list from a seed is the seed
conjoined with `List.all`. -/
theorem foldl_and_eq {α : Type} (p : α → Bool) :
    ∀ (l : List α) (s : Bool),
      l.foldl (fun acc x => acc && p x) s = (s && l.all p)
  | [], s => by simp
  | a :: l, s => by
      rw [List.foldl_cons, foldl_and_eq p l (s && p a), List.all_cons,
        Bool.and_assoc]

/-- Normal form of `Fault.checkAllowBlockLists`: the threaded flag conjoined
with the four policy conditions. -/
theorem checkAllowBlockLists_eq (f : Fault) (s : Bool) (r : Request) :
    f.checkAllowBlockLists s r =
      (s && !(f.pathBlocklist.contains r.path)
         && (f.pathAllowlist.isEmpty || f.pathAllowlist.contains r.path)
         && f.headerBlocklist.all (fun kv => !(headerGet r.headers kv.1 == kv.2))
         && (f.headerAllowlist.isEmpty ||
             f.headerAllowlist.all (fun kv => headerGet r.headers kv.1 == kv.2))) := by
  unfold Fault.checkAllowBlockLists
  rcases hpa : f.pathAllowlist with _ | ⟨a, as⟩ <;>
    rcases hha : f.headerAllowlist with _ | ⟨b, bs⟩ <;>
      simp [foldl_and_eq, Bool.and_assoc]

/-- `Fault.shouldEval` unfolded. -/
theorem shouldEval_eq (f : Fault) (r : Request) (rn : ℚ) :
    f.shouldEval r rn =
      ((f.enabled && f.checkAllowBlockLists f.enabled r) && f.participate rn) :=
  rfl

/-- The spec-side nested composition
`s1.Handler(s2.Handler(...sn.Handler(next)...))` a chain of steps is
claimed to implement. -/
def nestedCompose : List Injector → Handler → Handler
  | [], next => next
  | s :: rest, next => s (nestedCompose rest next)

/-- The chain handler is the nested composition of its middlewares. -/
theorem chain_handler_eq_nested (ms : List Injector) (next : Handler) :
    ChainInjector.Handler { middlewares := ms } next = nestedCompose ms next := by
  induction ms with
  | nil => rfl
  | cons s rest ih =>
      show s (List.foldr (fun m acc => m acc) next rest) = _
      rw [show List.foldr (fun m acc => m acc) next rest =
            ChainInjector.Handler { middlewares := rest } next from rfl, ih]
      rfl

/-- `chainCollect` keeps the accumulated middlewares and appends the
non-nil entries in order. -/
theorem chainCollect_map_some (ms : List Injector) :
    ∀ acc, chainCollect (ms.map some) acc = .ok (acc ++ ms) := by
  induction ms with
  | nil => intro acc; simp [chainCollect]
  | cons m rest ih =>
      intro acc
      simp [chainCollect, ih (acc ++ [m])]

/-- The only error any Fault option can produce is `ErrInvalidPercent`. -/
theorem applyFault_error (o : FaultOption) (f : Fault) (e : GoErr)
    (h : o.applyFault f = .error e) : e = .invalidPercent := by
  cases o with
  | participation p =>
      simp only [FaultOption.applyFault] at h
      by_cases hp : p < 0 ∨ 1 < p
      · rw [if_pos hp] at h
        exact (Except.error.inj h).symm
      · rw [if_neg hp] at h
        exact Except.noConfusion h
  | enabled b => exact Except.noConfusion h
  | pathBlocklist l => exact Except.noConfusion h
  | pathAllowlist l => exact Except.noConfusion h
  | headerBlocklist m => exact Except.noConfusion h
  | headerAllowlist m => exact Except.noConfusion h
  | randSeed s => exact Except.noConfusion h
  | randFloat32Func g => exact Except.noConfusion h

/-- An out-of-range participation option anywhere in the list makes the
option-application loop fail with `ErrInvalidPercent`. -/
theorem applyFaultOpts_bad_participation (p : ℚ) (hp : p < 0 ∨ 1 < p) :
    ∀ (opts : List FaultOption), FaultOption.participation p ∈ opts →
      ∀ f, applyFaultOpts opts f = .error .invalidPercent := by
  intro opts
  induction opts with
  | nil => intro h; exact absurd h (List.not_mem_nil _)
  | cons o rest ih =>
      intro hmem f
      rcases List.mem_cons.mp hmem with ho | hrest
      · subst ho
        simp [applyFaultOpts, FaultOption.applyFault, hp]
      · rcases happ : o.applyFault f with e | f2
        · rw [applyFault_error o f e happ] at happ
          simp [applyFaultOpts, happ]
        · simp [applyFaultOpts, happ, ih hrest f2]

/-- A nil entry makes `chainCollect` fail with `ErrNilInjector`. -/
theorem chainCollect_none (is : List (Option Injector)) (h : none ∈ is) :
    ∀ acc, chainCollect is acc = .err .nilInjector := by
  induction is with
  | nil => exact absurd h (List.not_mem_nil _)
  | cons i rest ih =>
      intro acc
      cases i with
      | none => rfl
      | some m =>
          rcases List.mem_cons.mp h with hh | ht
          · exact absurd hh.symm (Option.some_ne_none m)
          · exact ih ht (acc ++ [m])

/-- A successful `chainCollect` run saw no nil entry. -/
theorem chainCollect_ok_no_none (is : List (Option Injector)) :
    ∀ acc ms, chainCollect is acc = .ok ms → none ∉ is := by
  induction is with
  | nil => intro _ _ _; exact List.not_mem_nil _
  | cons i rest ih =>
      intro acc ms h hmem
      cases i with
      | none => exact CtorOutcome.noConfusion h
      | some m =>
          rcases List.mem_cons.mp hmem with hh | ht
          · exact Option.some_ne_none m hh.symm
          · exact ih (acc ++ [m]) ms h ht

/-- A nil entry makes `randomCollect` hit the nil-interface panic. -/
theorem randomCollect_none (is : List (Option Injector)) (h : none ∈ is) :
    ∀ acc, randomCollect is acc = .panicked := by
  induction is with
  | nil => exact absurd h (List.not_mem_nil _)
  | cons i rest ih =>
      intro acc
      cases i with
      | none => rfl
      | some m =>
          rcases List.mem_cons.mp h with hh | ht
          · exact absurd hh.symm (Option.some_ne_none m)
          · exact ih ht (acc ++ [m])

/-- A false allow/block check forces the pass-through branch. -/
theorem shouldEval_false_of_check_false (f : Fault) (next : Handler)
    (r : Request) (rn : ℚ)
    (h : f.checkAllowBlockLists f.enabled r = false) :
    f.shouldEval r rn = false ∧ f.Handler next r rn = next r := by
  have hse : f.shouldEval r rn = false := by
    rw [shouldEval_eq, h]
    simp
  exact ⟨hse, by simp [Fault.Handler, hse]⟩

/-! ### Claims -/

/-- The Fault used to refute claim C1: enabled, full participation, a
two-pair header allowlist, no other policy. -/
def c1Fault : Fault :=
  { enabled := true, injector := fun next => next, participation := 1,
    pathBlocklist := [], pathAllowlist := [],
    headerBlocklist := [],
    headerAllowlist := [("a", "1"), ("b", "2")],
    randSeed := 1, randF := none }

/-- The request used to refute claim C1: carries exactly one of the two
allowlisted header pairs. -/
def c1Request : Request := { path := "/", headers := [("a", "1")] }

/-- **C1, counterexample.** The request matches the allowlist pair
`("a","1")`, it passes the enabled, path, and header-blocklist checks, the
participation draw (`rn = 0 < 1`) passes — yet the Fault does NOT admit it,
because the code requires every allowlist pair to match, not just one. -/
theorem c1_any_pair_counterexample :
    ("a", "1") ∈ c1Fault.headerAllowlist ∧
    headerGet c1Request.headers "a" = "1" ∧
    c1Fault.enabled = true ∧
    c1Fault.participate 0 = true ∧
    c1Fault.checkAllowBlockLists true c1Request = false ∧
    c1Fault.shouldEval c1Request 0 = false := by
  decide

/-- **C1, amended.** If the headerAllowlist is non-empty then a request
that passed the enabled, path and header-blocklist checks passes
`checkAllowBlockLists` (and is hence admitted subject only to the
participation draw) if and only if EVERY key/value pair of the allowlist
exactly matches a request header — conjunctive all-pair semantics, not the
blocklist's any-pair semantics. -/
theorem c1_headerAllowlist_all_pairs (f : Fault) (r : Request)
    (hne : f.headerAllowlist ≠ [])
    (hen : f.enabled = true)
    (hbl : f.pathBlocklist.contains r.path = false)
    (hal : f.pathAllowlist = [] ∨ f.pathAllowlist.contains r.path = true)
    (hhb : ∀ kv ∈ f.headerBlocklist, ¬ headerGet r.headers kv.1 = kv.2) :
    (f.checkAllowBlockLists f.enabled r = true ↔
      ∀ kv ∈ f.headerAllowlist, headerGet r.headers kv.1 = kv.2) := by
  rw [hen, checkAllowBlockLists_eq]
  have h1 : (f.pathAllowlist.isEmpty || f.pathAllowlist.contains r.path) = true := by
    rcases hal with h | h
    · simp [h]
    · rw [h, Bool.or_true]
  have h2 : f.headerBlocklist.all
      (fun kv => !(headerGet r.headers kv.1 == kv.2)) = true := by
    rw [List.all_eq_true]
    intro kv hkv
    simp [hhb kv hkv]
  have h3 : f.headerAllowlist.isEmpty = false := by
    cases hl : f.headerAllowlist with
    | nil => exact absurd hl hne
    | cons a as => rfl
  rw [hbl, h1, h2, h3]
  simp [List.all_eq_true]

/-- Witness fault for the amended C1 theorem. -/
def c1WitFault : Fault :=
  { c1Fault with headerAllowlist := [("a", "1")] }

/-- **C1, witness.** Applying the amended theorem at a concrete Fault and
request on which both sides of the equivalence evaluate. -/
theorem c1_headerAllowlist_all_pairs_witness :
    c1WitFault.checkAllowBlockLists c1WitFault.enabled c1Request = true :=
  (c1_headerAllowlist_all_pairs c1WitFault c1Request (by decide) rfl
      (by decide) (Or.inl rfl) (by decide)).mpr (by decide)

/-- **C2.** For a Fault whose participation lies in `[0,1]`, on every
request passing the enabled and allow/block checks, admission is decided
by a strict comparison of the drawn float against the participation:
`rn < p` admits, `p = 0` never admits (for `rn ≥ 0`), `p = 1` always
admits (for `rn < 1`); the admitted branch runs the injector and the
refused branch is a pass-through. -/
theorem c2_participation_strict_threshold (f : Fault) (next : Handler)
    (r : Request) (rn : ℚ)
    (_hp0 : 0 ≤ f.participation) (hp1 : f.participation ≤ 1)
    (hen : f.enabled = true)
    (hcheck : f.checkAllowBlockLists f.enabled r = true) :
    (f.shouldEval r rn = true ↔ rn < f.participation) ∧
    (f.participation = 0 → 0 ≤ rn → f.shouldEval r rn = false) ∧
    (f.participation = 1 → rn < 1 → f.shouldEval r rn = true) ∧
    (f.shouldEval r rn = true → f.Handler next r rn = f.injector next r) ∧
    (f.shouldEval r rn = false → f.Handler next r rn = next r) := by
  rw [hen] at hcheck
  have hse : f.shouldEval r rn = f.participate rn := by
    rw [shouldEval_eq, hen, hcheck]
    simp
  have hpart : f.participate rn = true ↔ rn < f.participation := by
    unfold Fault.participate
    by_cases h : rn < f.participation ∧ f.participation ≤ 1
    · simp [h, h.1]
    · have hnlt : ¬ rn < f.participation := fun hlt => h ⟨hlt, hp1⟩
      simp [h, hnlt]
  refine ⟨by rw [hse]; exact hpart, ?_, ?_, ?_, ?_⟩
  · intro h0 hrn
    rw [hse]
    cases hb : f.participate rn with
    | false => rfl
    | true =>
        rw [h0] at hpart
        exact absurd (hpart.mp hb) (not_lt.mpr hrn)
  · intro h1 hrn1
    rw [hse]
    exact hpart.mpr (by rw [h1]; exact hrn1)
  · intro h
    simp [Fault.Handler, h]
  · intro h
    simp [Fault.Handler, h]

/-- Witness fault for C2: enabled, participation one half, no policy. -/
def c2WitFault : Fault :=
  { enabled := true, injector := fun next => next, participation := 1/2,
    pathBlocklist := [], pathAllowlist := [], headerBlocklist := [],
    headerAllowlist := [], randSeed := 1, randF := none }

/-- Witness request for C2 and C7. -/
def plainRequest : Request := { path := "/", headers := [] }

/-- **C2, witness.** A draw of `1/4` against participation `1/2` admits. -/
theorem c2_participation_strict_threshold_witness :
    c2WitFault.shouldEval plainRequest (1/4) = true :=
  (c2_participation_strict_threshold c2WitFault (fun _ => []) plainRequest (1/4)
      (by norm_num [c2WitFault]) (by norm_num [c2WitFault]) rfl (by decide)).1.mpr
    (by norm_num [c2WitFault])

/-- **C3** (evaluating the code at the failing behavior). For every
RejectInjector, downstream handler and request, the handler's trace is
exactly a `StateStarted` report followed by the abort panic: no
`StateFinished` report ever occurs, although the claim (and the test
`TestRejectInjectorReporterStates`) requires one before the abort
propagates. -/
theorem c3_reject_skips_finished_report (i : RejectInjector) (next : Handler)
    (r : Request) :
    RejectInjector.Handler i next r =
      [.report "RejectInjector" .started, .abort] ∧
    ∀ nm, Event.report nm .finished ∉ RejectInjector.Handler i next r := by
  refine ⟨rfl, ?_⟩
  intro nm hmem
  simp [RejectInjector.Handler] at hmem

/-- **C4.** The chain handler over steps `[s1, ..., sn]` is exactly the
nested composition `s1 (s2 (... (sn next)))` — `s1` outermost, hence first
— an empty middleware list is a pure pass-through, a cons peels off its
head so each step decides by calling (or not) its downstream handler, and
`NewChainInjector` collects non-nil steps in the given order. -/
theorem c4_chain_composition (ms : List Injector) (next : Handler) :
    ChainInjector.Handler { middlewares := ms } next = nestedCompose ms next ∧
    ChainInjector.Handler { middlewares := [] } next = next ∧
    (∀ (s : Injector) (rest : List Injector),
      ChainInjector.Handler { middlewares := s :: rest } next =
        s (ChainInjector.Handler { middlewares := rest } next)) ∧
    NewChainInjector (ms.map some) = .ok { middlewares := ms } := by
  refine ⟨chain_handler_eq_nested ms next, rfl, fun s rest => rfl, ?_⟩
  simp [NewChainInjector, chainCollect_map_some ms []]

/-- **C5.** `NewFault` fails with `ErrNilInjector` on a nil injector, fails
with `ErrInvalidPercent` when an out-of-range participation option is
supplied, and on any option error returns the error together with no Fault
at all. -/
theorem c5_newFault_validation (g : Int → FloatFn) :
    (∀ opts, NewFault g none opts = (none, some .nilInjector)) ∧
    (∀ (inj : Injector) (opts : List FaultOption) (p : ℚ),
        FaultOption.participation p ∈ opts → (p < 0 ∨ 1 < p) →
        NewFault g (some inj) opts = (none, some .invalidPercent)) ∧
    (∀ (i : Option Injector) (opts : List FaultOption),
        (NewFault g i opts).2 ≠ none → (NewFault g i opts).1 = none) := by
  refine ⟨fun opts => rfl, ?_, ?_⟩
  · intro inj opts p hmem hp
    simp [NewFault, applyFaultOpts_bad_participation p hp opts hmem]
  · intro i opts h
    cases i with
    | none => rfl
    | some inj =>
        cases happ : applyFaultOpts opts (faultDefaults inj) with
        | error e => simp [NewFault, happ]
        | ok f2 =>
            exfalso
            exact h (by simp [NewFault, happ])

/-- **C5, witness.** A nil injector and an out-of-range participation at
concrete inputs. -/
theorem c5_newFault_validation_witness :
    NewFault (fun _ _ => (0:ℚ)) none [] = (none, some .nilInjector) ∧
    NewFault (fun _ _ => (0:ℚ)) (some (fun next => next))
        [FaultOption.participation 2] = (none, some .invalidPercent) :=
  ⟨(c5_newFault_validation _).1 [],
   (c5_newFault_validation _).2.1 _ _ 2 (List.mem_singleton.mpr rfl)
     (Or.inr (by norm_num))⟩

/-- **C6, counterexample.** `NewRandomInjector` given a list containing a
nil entry does not return any error at all (let alone a distinguishable
one): it hits the runtime nil-interface panic. -/
theorem c6_random_nil_counterexample :
    (¬ ∃ e, NewRandomInjector (fun _ _ => 0) [none] [] = CtorOutcome.err e) ∧
    NewRandomInjector (fun _ _ => 0) [none] [] = CtorOutcome.panicked := by
  constructor
  · rintro ⟨e, h⟩
    rw [show NewRandomInjector (fun _ _ => 0) [none] [] = CtorOutcome.panicked
          from rfl] at h
    exact CtorOutcome.noConfusion h
  · rfl

/-- **C6, amended.** `NewChainInjector` rejects a nil entry at construction
with `ErrNilInjector` and returns no composite; `NewRandomInjector`
performs no nil check — a nil entry makes it panic while taking the
entry's `Handler` method, so it returns no composite either, but without
the distinguishable error; and a successful `NewChainInjector` never saw a
nil entry. -/
theorem c6_nil_entry_construction (stdIntn : Int → Nat → Nat)
    (opts : List RandomInjectorOption) (is : List (Option Injector))
    (hmem : none ∈ is) :
    NewChainInjector is = CtorOutcome.err .nilInjector ∧
    NewRandomInjector stdIntn is opts = CtorOutcome.panicked ∧
    ∀ (is2 : List (Option Injector)) (ci : ChainInjector),
      NewChainInjector is2 = CtorOutcome.ok ci → none ∉ is2 := by
  refine ⟨?_, ?_, ?_⟩
  · simp [NewChainInjector, chainCollect_none is hmem []]
  · simp [NewRandomInjector, randomCollect_none is hmem []]
  · intro is2 ci h hmem2
    cases h2 : chainCollect is2 [] with
    | ok ms => exact chainCollect_ok_no_none is2 [] ms h2 hmem2
    | err e => simp [NewChainInjector, h2] at h
    | panicked => simp [NewChainInjector, h2] at h

/-- **C6, witness.** The amended theorem at concrete nil-containing lists. -/
theorem c6_nil_entry_construction_witness :
    NewChainInjector [none] = CtorOutcome.err .nilInjector ∧
    NewRandomInjector (fun _ _ => 0) [none, some (fun next => next)] [] =
      CtorOutcome.panicked :=
  ⟨(c6_nil_entry_construction (fun _ _ => 0) [] [none] (List.Mem.head _)).1,
   (c6_nil_entry_construction (fun _ _ => 0) []
       [none, some (fun next => next)] (List.Mem.head _)).2.1⟩

/-- **C7.** A request whose path is blocklisted is never admitted, whatever
the participation, the draw or any allowlist; and with a non-empty path
allowlist, a request whose path is absent from it is never admitted either
— in both cases the Fault passes through to `next`. -/
theorem c7_path_policy_never_admits (f : Fault) (next : Handler) (r : Request)
    (rn : ℚ) :
    (r.path ∈ f.pathBlocklist →
       f.shouldEval r rn = false ∧ f.Handler next r rn = next r) ∧
    (f.pathAllowlist ≠ [] → r.path ∉ f.pathAllowlist →
       f.shouldEval r rn = false ∧ f.Handler next r rn = next r) := by
  constructor
  · intro hmem
    apply shouldEval_false_of_check_false
    have hc : f.pathBlocklist.contains r.path = true :=
      List.elem_eq_true_of_mem hmem
    rw [checkAllowBlockLists_eq, hc]
    simp
  · intro hne hnmem
    apply shouldEval_false_of_check_false
    rw [checkAllowBlockLists_eq]
    have h1 : f.pathAllowlist.isEmpty = false := by
      cases hl : f.pathAllowlist with
      | nil => exact absurd hl hne
      | cons a as => rfl
    have h2 : f.pathAllowlist.contains r.path = false := by
      cases hc : f.pathAllowlist.contains r.path with
      | false => rfl
      | true => exact absurd (List.mem_of_elem_eq_true hc) hnmem
    rw [h1, h2]
    simp

/-- Witness fault for C7: enabled, full participation, blocklisted root. -/
def c7WitFault : Fault :=
  { enabled := true, injector := fun next => next, participation := 1,
    pathBlocklist := ["/"], pathAllowlist := ["/other"],
    headerBlocklist := [], headerAllowlist := [],
    randSeed := 1, randF := none }

/-- **C7, witness.** The blocklisted root path is passed through at
participation 1 and a passing draw; so is a path missing from the
non-empty allowlist. -/
theorem c7_path_policy_never_admits_witness :
    (c7WitFault.shouldEval plainRequest 0 = false ∧
      c7WitFault.Handler (fun _ => [.work 0]) plainRequest 0 =
        [.work 0]) ∧
    (c7WitFault.shouldEval plainRequest 0 = false ∧
      c7WitFault.Handler (fun _ => [.work 0]) plainRequest 0 =
        [.work 0]) :=
  ⟨(c7_path_policy_never_admits c7WitFault (fun _ => [.work 0]) plainRequest 0).1
     (by decide),
   (c7_path_policy_never_admits c7WitFault (fun _ => [.work 0]) plainRequest 0).2
     (by decide) (by decide)⟩

/-- **C9.** If `randF` always returns an in-range index (as `rand.Intn`
does), the random handler is total: a non-empty middleware list delegates
exactly once to the middleware at index `randF(len(middlewares))`, an
empty list serves `next` unchanged, and the unchecked subscript never
faults. -/
theorem c9_random_handler_total (ri : RandomInjector) (next : Handler)
    (r : Request) (hrange : ∀ n, 0 < n → ri.randF n < n) :
    (ri.middlewares = [] → ri.Handler next r = some (next r)) ∧
    (ri.middlewares ≠ [] →
      ∃ m, ri.middlewares.get? (ri.randF ri.middlewares.length) = some m ∧
           ri.Handler next r = some (m next r)) ∧
    (ri.Handler next r).isSome = true := by
  by_cases hemp : ri.middlewares = []
  · refine ⟨fun _ => ?_, fun hne => absurd hemp hne, ?_⟩
    · simp [RandomInjector.Handler, hemp]
    · simp [RandomInjector.Handler, hemp]
  · have hlen : 0 < ri.middlewares.length := List.length_pos.mpr hemp
    have hidx : ri.randF ri.middlewares.length < ri.middlewares.length :=
      hrange _ hlen
    have hget : ri.middlewares.get? (ri.randF ri.middlewares.length) =
        some (ri.middlewares.get ⟨ri.randF ri.middlewares.length, hidx⟩) :=
      List.get?_eq_get hidx
    have hhandler : ri.Handler next r =
        some ((ri.middlewares.get
          ⟨ri.randF ri.middlewares.length, hidx⟩) next r) := by
      unfold RandomInjector.Handler
      rw [if_pos hlen, hget]
    refine ⟨fun h => absurd h hemp, fun _ => ⟨_, hget, hhandler⟩, ?_⟩
    rw [hhandler]
    rfl

/-- Witness random injector for C9: one identity middleware, constant
in-range draw. -/
def c9WitInjector : RandomInjector :=
  { middlewares := [fun next => next], randSeed := 1, randF := fun _ => 0 }

/-- **C9, witness.** The theorem applied at the concrete injector. -/
theorem c9_random_handler_total_witness :
    (c9WitInjector.Handler (fun _ => [.work 1]) plainRequest).isSome = true :=
  (c9_random_handler_total c9WitInjector (fun _ => [.work 1]) plainRequest
      (fun _ hn => hn)).2.2

/-- **C10.** `NewErrorInjector` detects "no custom text" by comparing to
the sentinel `"go-fault: replace with default code text"`: passing
`WithStatusText` with exactly the sentinel yields the standard status text
for the code, while `WithStatusText("")` is honored literally and the
handler then writes a response whose body text is empty. -/
theorem c10_error_injector_sentinel (stf : Nat → String) (code : Nat)
    (hvalid : stf code ≠ "") :
    NewErrorInjector stf code [.statusText placeholderStatusText] =
      (some { statusCode := code, statusText := stf code, reporter := .noop },
       none) ∧
    NewErrorInjector stf code [.statusText ""] =
      (some { statusCode := code, statusText := "", reporter := .noop },
       none) ∧
    (∀ i, NewErrorInjector stf code [.statusText ""] = (some i, none) →
      ∀ next r, ErrorInjector.Handler i next r =
        [.report "ErrorInjector" .started, .write code "",
         .report "ErrorInjector" .finished]) := by
  have hbeq : (stf code == "") = false := by
    cases hb : stf code == "" with
    | false => rfl
    | true => exact absurd (eq_of_beq hb) hvalid
  have hsentinel : ("" == placeholderStatusText) = false := by decide
  have h2 : NewErrorInjector stf code [.statusText ""] =
      (some { statusCode := code, statusText := "", reporter := .noop },
       none) := by
    simp [NewErrorInjector, ErrorInjectorOption.applyErrorInjector, hbeq,
      hsentinel]
  refine ⟨?_, h2, ?_⟩
  · simp [NewErrorInjector, ErrorInjectorOption.applyErrorInjector, hbeq]
  · intro i hi next r
    rw [h2] at hi
    have h4 : i = { statusCode := code, statusText := "", reporter := .noop } :=
      (Option.some.inj (congrArg Prod.fst hi)).symm
    rw [h4]
    rfl

/-- The standard status-text table restricted to code 500, for the C10
witness (the real `http.StatusText` agrees at this code). -/
def statusText500 (code : Nat) : String :=
  if code = 500 then "Internal Server Error" else ""

/-- **C10, witness.** Sentinel and empty custom text at code 500. -/
theorem c10_error_injector_sentinel_witness :
    NewErrorInjector statusText500 500 [.statusText placeholderStatusText] =
      (some { statusCode := 500, statusText := "Internal Server Error",
              reporter := .noop }, none) ∧
    NewErrorInjector statusText500 500 [.statusText ""] =
      (some { statusCode := 500, statusText := "", reporter := .noop },
       none) := by
  have h := c10_error_injector_sentinel statusText500 500 (by decide)
  exact ⟨h.1, h.2.1⟩

end GoFault
